import Mathlib

/-!
Verification development for `ldm/modules/kohya_lora_manager.py`.

The module loads kohya-style LoRA / LoHA adapter checkpoints, discovers
patchable sub-layers of a unet / text-encoder pair, installs forward hooks
on them, and accumulates the active adapters' additive contributions into
each hooked layer's output.

The embedding below follows the Python source closely:

* Python dicts are ordered association lists (`alget` / `alput`), matching
  CPython's insertion-ordered dict semantics.
* Tensors appearing during parsing are modelled by `STensor` (a shape plus
  the scalar returned by `.item()`); the parser only ever inspects shapes
  and scalar values, and stores the tensors it copies.
* Fallible Python code (KeyError / IndexError / ValueError) is modelled in
  `Except`; a plain `return` from the middle of `load_from_dict` is kept
  distinct from falling off the end of the loop via `PRes.ret` / `PRes.done`.
* Floating point arithmetic is modelled exactly over `ℚ`.
-/

deriving instance DecidableEq for Except

/-- Helper instance so that equalities on the parser's grouped-pass result
(a nested tuple) are decidable in one synthesis step. -/
instance : DecidableEq (Option ℚ × Option ℕ × Bool) := instDecidableEqProd

/-- Association-list lookup; models a Python dict read (`d.get(k)` / `k in d`). -/
def alget {α : Type} : List (String × α) → String → Option α
  | [], _ => none
  | p :: rest, k => if p.1 = k then some p.2 else alget rest k

/-- Association-list insert-or-update; models a Python dict write `d[k] = v`
(an existing key keeps its position, a new key is appended at the end). -/
def alput {α : Type} : List (String × α) → String → α → List (String × α)
  | [], k, v => [(k, v)]
  | p :: rest, k, v => if p.1 = k then (k, v) :: rest else p :: alput rest k v

/-- Models Python `k in d`. -/
def hasKeyA {α : Type} (l : List (String × α)) (k : String) : Bool :=
  (alget l k).isSome

/-- Models Python `s.startswith(p)`. -/
def strStarts (s p : String) : Bool :=
  p.toList.isPrefixOf s.toList

/-- Models Python `s.endswith(p)`. -/
def strEnds (s p : String) : Bool :=
  p.toList.isSuffixOf s.toList

/-- Helper for `strIn`: does `needle` occur as a contiguous run of `hay`? -/
def listContains (needle : List Char) : List Char → Bool
  | [] => needle.isEmpty
  | c :: rest => needle.isPrefixOf (c :: rest) || listContains needle rest

/-- Models Python `p in s` (substring test). -/
def strIn (p s : String) : Bool :=
  listContains p.toList s.toList

/-- Models Python `key.split(".", 1)` unpacked into a pair; `none` when the key
holds no dot (in which case the two-element unpacking raises ValueError). -/
def splitFirstDot (s : String) : Option (String × String) :=
  match s.toList.dropWhile (fun c => c ≠ '.') with
  | [] => none
  | _ :: rest => some (⟨s.toList.takeWhile (fun c => c ≠ '.')⟩, ⟨rest⟩)

/-- Models `lora_name.replace(".", "_")`. -/
def replaceDots (s : String) : String :=
  ⟨s.toList.map (fun c => if c = '.' then '_' else c)⟩

/-- Constant `LoRAModuleWrapper.LORA_PREFIX_UNET`. -/
def LORA_PREFIX_UNET : String := "lora_unet"

/-- Constant `LoRAModuleWrapper.LORA_PREFIX_TEXT_ENCODER`. -/
def LORA_PREFIX_TEXT_ENCODER : String := "lora_te"

/-- Constant `LoRAModuleWrapper.UNET_TARGET_REPLACE_MODULE`. -/
def UNET_TARGET_REPLACE_MODULE : List String :=
  ["Transformer2DModel", "Attention", "ResnetBlock2D", "Downsample2D",
   "Upsample2D", "SpatialTransformer"]

/-- Constant `LoRAModuleWrapper.TEXT_ENCODER_TARGET_REPLACE_MODULE`. -/
def TEXT_ENCODER_TARGET_REPLACE_MODULE : List String :=
  ["ResidualAttentionBlock", "CLIPAttention", "CLIPMLP"]

/-- A tensor as seen by the parser: its `.shape` / `.size()` and the scalar
returned by `.item()` (only ever read on the 0-dim alpha tensors). -/
structure STensor where
  shape : List ℕ
  item : ℚ
deriving DecidableEq

/-- Python exceptions that `LoRA.load_from_dict` can raise (`runtimeError` is
torch's RuntimeError, raised by `weight.copy_` on a shape-incompatible
source). -/
inductive Err where
  | keyError (k : String)
  | indexError
  | valueError
  | runtimeError
deriving DecidableEq

/-- A patchable sub-layer as stored in the wrapper's identifier maps: an
`nn.Linear`, an `nn.Conv2d` (with the attributes the parser reads), or some
other module class (which the lora/locon branch rejects). -/
inductive WrappedModule where
  | linear (in_features out_features : ℕ)
  | conv2d (kernel_size stride padding : ℕ × ℕ)
  | other (cls : String)
deriving DecidableEq

/-- The `nn.Conv2d` sub-transform built for a lora leg (weights copied in,
`bias=False`; unspecified ctor arguments keep the torch defaults
`stride=(1,1)`, `padding=(0,0)`). -/
structure ConvSpecS where
  in_channels : ℕ
  out_channels : ℕ
  kernel_size : ℕ × ℕ
  stride : ℕ × ℕ
  padding : ℕ × ℕ
  weight : STensor
deriving DecidableEq

/-- The `nn.Linear` sub-transform built for a lora leg (`bias=False`). -/
structure LinearSpecS where
  in_features : ℕ
  out_features : ℕ
  weight : STensor
deriving DecidableEq

/-- A `down` / `mid` / `up` sub-transform of a low-rank layer. -/
inductive SubModuleS where
  | conv (c : ConvSpecS)
  | lin (l : LinearSpecS)
deriving DecidableEq

/-- Formula `scale = alpha / rank if (alpha and rank) else 1.0`
(shared by `LoRALayer.__init__` and `LoHALayer.__init__`; Python truthiness:
`None` and `0` are falsy). -/
def mkScale (rank : Option ℕ) (alpha : Option ℚ) : ℚ :=
  match alpha, rank with
  | some a, some r => if a ≠ 0 ∧ r ≠ 0 then a / r else 1
  | _, _ => 1

/-- Parse-time image of a `LoRALayer` (low-rank variant). -/
structure LoRALayerS where
  lora_name : String
  name : String
  scale : ℚ
  down : SubModuleS
  mid : Option SubModuleS
  up : SubModuleS
deriving DecidableEq

/-- Parse-time image of a `LoHALayer` (Hadamard variant). -/
structure LoHALayerS where
  lora_name : String
  name : String
  scale : ℚ
  w1_a : STensor
  w1_b : STensor
  w2_a : STensor
  w2_b : STensor
  t1 : Option STensor
  t2 : Option STensor
  org : WrappedModule
deriving DecidableEq

/-- A Layer Delta: one of the two variants. -/
inductive LayerS where
  | lora (l : LoRALayerS)
  | loha (h : LoHALayerS)
deriving DecidableEq

/-- The mutable state of a `LoRA` adapter object (device / dtype are external
plumbing and carry no information for the parser). -/
structure LoRAState where
  name : String
  multiplier : ℚ
  layers : List (String × LayerS)
  rank : Option ℕ
  alpha : Option ℚ
deriving DecidableEq

/-- Constructor `LoRA.__init__(name, device, dtype, wrapper, multiplier)`. -/
def initLoRA (name : String) (multiplier : ℚ) : LoRAState :=
  { name := name, multiplier := multiplier, layers := [], rank := none, alpha := none }

/-- The parts of `LoRAModuleWrapper` state the parser and hooks read. -/
structure WrapperState where
  text_modules : List (String × WrappedModule)
  unet_modules : List (String × WrappedModule)
  loaded_loras : List (String × LoRAState)
  applied_loras : List (String × LoRAState)
deriving DecidableEq

/-- One stem's grouped leaves. -/
abbrev GroupT := String × List (String × STensor)

/-- The first loop of `LoRA.load_from_dict` (lines 233-256): split every key on
the first dot, group leaves by stem, opportunistically record the adapter-wide
alpha (first leaf ending in `alpha`) and rank (first 2-dim `lora_down.weight`
under a tracked prefix), and set the (unused) `is_loha` flag. -/
def pass1 : List (String × STensor) → List GroupT → Option ℚ → Option ℕ → Bool →
    Except Err (List GroupT × Option ℚ × Option ℕ × Bool)
  | [], groups, alpha, rank, isLoha => .ok (groups, alpha, rank, isLoha)
  | (key, value) :: rest, groups, alpha, rank, isLoha =>
    match splitFirstDot key with
    | none => .error .valueError
    | some (stem, leaf) =>
      let groups2 := alput groups stem (alput ((alget groups stem).getD []) leaf value)
      if strEnds leaf "alpha" then
        pass1 rest groups2 (match alpha with | none => some value.item | some a => some a)
          rank isLoha
      else
        let rank2 :=
          if (strStarts stem LORA_PREFIX_TEXT_ENCODER || strStarts stem LORA_PREFIX_UNET)
              ∧ rank = none ∧ leaf = "lora_down.weight" ∧ value.shape.length = 2 then
            some (value.shape.headD 0)
          else rank
        let isLoha2 := isLoha || strIn "hada_t1" leaf
        pass1 rest groups2 alpha rank2 isLoha2

/-- Resolution of a stem against the wrapper's identifier maps
(lines 260-265; a stem with neither tracked prefix resolves to nothing,
as does a tracked stem missing from its map -- both paths `continue`). -/
def resolveStem (w : WrapperState) (stem : String) : Option WrappedModule :=
  if strStarts stem LORA_PREFIX_TEXT_ENCODER then alget w.text_modules stem
  else if strStarts stem LORA_PREFIX_UNET then alget w.unet_modules stem
  else none

/-- Result of building one stem's Layer Delta. -/
inductive BuildRes where
  | built (layer : LayerS)
  | badModule
  | failed (e : Err)
deriving DecidableEq

/-- Test `type(wrapped) == torch.nn.Conv2d and wrapped.kernel_size != (1, 1)`. -/
def isConvKernelNot11 : WrappedModule → Bool
  | .conv2d ks _ _ => decide (ks ≠ (1, 1))
  | _ => false

/-- Shape requirement of `dst.copy_(src)`: the source must be expandable to
the destination's shape — no more dimensions than the destination, and each
source dimension (aligned at the trailing end) equal to the destination's or
equal to 1.  A violation raises torch's RuntimeError. -/
def broadcastableTo (src dst : List ℕ) : Bool :=
  decide (src.length ≤ dst.length) &&
    (src.reverse.zip dst.reverse).all (fun p => p.1 == p.2 || p.1 == 1)

/-- The lora / locon branch of `load_from_dict` (lines 275-323): reads
`lora_mid.weight` and `lora_up.weight` (the latter lookup can raise KeyError),
builds the `down` / `mid` / `up` sub-transforms according to the wrapped
module's type, copies the parsed tensors in with `weight.copy_` (lines
302-306 — each copy raises RuntimeError unless the parsed tensor is
expandable to the constructed leg's weight shape: `[out, in]` for a linear
leg, `[out, in, kH, kW]` for a convolution leg), and constructs the
`LoRALayer` with the adapter-wide rank and the group-local alpha.
`badModule` is the `>> Encountered unknown lora layer module` early return
(line 296-299). -/
def buildLora (adapterName : String) (adapterRank : Option ℕ) (wrapped : WrappedModule)
    (stem : String) (values : List (String × STensor)) (value_down : STensor) : BuildRes :=
  match alget values "lora_up.weight" with
  | none => .failed (.keyError "lora_up.weight")
  | some value_up =>
    match wrapped with
    | .conv2d ks strd pad =>
      match value_down.shape.get? 1 with
      | none => .failed .indexError
      | some d_in =>
        match value_down.shape.get? 0 with
        | none => .failed .indexError
        | some d_out =>
          match alget values "lora_mid.weight" with
          | some vm =>
            match vm.shape.get? 1 with
            | none => .failed .indexError
            | some m_in =>
              match vm.shape.get? 0 with
              | none => .failed .indexError
              | some m_out =>
                match value_up.shape.get? 1 with
                | none => .failed .indexError
                | some u_in =>
                  match value_up.shape.get? 0 with
                  | none => .failed .indexError
                  | some u_out =>
                    if broadcastableTo value_down.shape [d_out, d_in, 1, 1] then
                      if broadcastableTo vm.shape [m_out, m_in, ks.1, ks.2] then
                        if broadcastableTo value_up.shape [u_out, u_in, 1, 1] then
                          .built (.lora
                            { lora_name := adapterName, name := stem,
                              scale := mkScale adapterRank
                                ((alget values "alpha").map STensor.item),
                              down := .conv ⟨d_in, d_out, (1, 1), (1, 1), (0, 0), value_down⟩,
                              mid := some (.conv ⟨m_in, m_out, ks, strd, pad, vm⟩),
                              up := .conv ⟨u_in, u_out, (1, 1), (1, 1), (0, 0), value_up⟩ })
                        else .failed .runtimeError
                      else .failed .runtimeError
                    else .failed .runtimeError
          | none =>
            match value_up.shape.get? 1 with
            | none => .failed .indexError
            | some u_in =>
              match value_up.shape.get? 0 with
              | none => .failed .indexError
              | some u_out =>
                if broadcastableTo value_down.shape [d_out, d_in, ks.1, ks.2] then
                  if broadcastableTo value_up.shape [u_out, u_in, 1, 1] then
                    .built (.lora
                      { lora_name := adapterName, name := stem,
                        scale := mkScale adapterRank ((alget values "alpha").map STensor.item),
                        down := .conv ⟨d_in, d_out, ks, strd, pad, value_down⟩,
                        mid := none,
                        up := .conv ⟨u_in, u_out, (1, 1), (1, 1), (0, 0), value_up⟩ })
                  else .failed .runtimeError
                else .failed .runtimeError
    | .linear _ _ =>
      match value_down.shape.get? 1 with
      | none => .failed .indexError
      | some d_in =>
        match value_down.shape.get? 0 with
        | none => .failed .indexError
        | some d_out =>
          match value_up.shape.get? 1 with
          | none => .failed .indexError
          | some u_in =>
            match value_up.shape.get? 0 with
            | none => .failed .indexError
            | some u_out =>
              if broadcastableTo value_down.shape [d_out, d_in] then
                if broadcastableTo value_up.shape [u_out, u_in] then
                  .built (.lora
                    { lora_name := adapterName, name := stem,
                      scale := mkScale adapterRank ((alget values "alpha").map STensor.item),
                      down := .lin ⟨d_in, d_out, value_down⟩,
                      mid := none,
                      up := .lin ⟨u_in, u_out, value_up⟩ })
                else .failed .runtimeError
              else .failed .runtimeError
    | .other _ => .badModule

/-- The loha branch of `load_from_dict` (lines 326-348): group-local alpha,
local rank from `hada_w1_b.shape[0]`, the four factor tensors (missing ones
raise KeyError), and the `t1`/`t2` cores only for a non-1x1 convolution. -/
def buildLoha (adapterName : String) (wrapped : WrappedModule) (stem : String)
    (values : List (String × STensor)) (w1b : STensor) : BuildRes :=
  match w1b.shape.get? 0 with
  | none => .failed .indexError
  | some rank =>
    match alget values "hada_w1_a" with
    | none => .failed (.keyError "hada_w1_a")
    | some w1a =>
      match alget values "hada_w2_a" with
      | none => .failed (.keyError "hada_w2_a")
      | some w2a =>
        match alget values "hada_w2_b" with
        | none => .failed (.keyError "hada_w2_b")
        | some w2b =>
          if isConvKernelNot11 wrapped then
            match alget values "hada_t1" with
            | none => .failed (.keyError "hada_t1")
            | some t1v =>
              match alget values "hada_t2" with
              | none => .failed (.keyError "hada_t2")
              | some t2v =>
                .built (.loha
                  { lora_name := adapterName, name := stem,
                    scale := mkScale (some rank) ((alget values "alpha").map STensor.item),
                    w1_a := w1a, w1_b := w1b, w2_a := w2a, w2_b := w2b,
                    t1 := some t1v, t2 := some t2v, org := wrapped })
          else
            .built (.loha
              { lora_name := adapterName, name := stem,
                scale := mkScale (some rank) ((alget values "alpha").map STensor.item),
                w1_a := w1a, w1_b := w1b, w2_a := w2a, w2_b := w2b,
                t1 := none, t2 := none, org := wrapped })

/-- Outcome of one iteration of the second loop of `load_from_dict`. -/
inductive StepRes where
  | cont (st : LoRAState)
  | ret (st : LoRAState)
  | err (e : Err)
deriving DecidableEq

/-- One iteration of the second loop of `load_from_dict` (lines 259-356):
skip unresolvable stems, dispatch on the leaf keys present, store the built
layer under the stem.  `ret` is the in-loop `return` (unknown module type or
unknown leaf format), `err` a raised exception. -/
def stepGroup (w : WrapperState) (st : LoRAState) (stem : String)
    (values : List (String × STensor)) : StepRes :=
  match resolveStem w stem with
  | none => .cont st
  | some wrapped =>
    match alget values "lora_down.weight" with
    | some value_down =>
      match buildLora st.name st.rank wrapped stem values value_down with
      | .built layer => .cont { st with layers := alput st.layers stem layer }
      | .badModule => .ret st
      | .failed e => .err e
    | none =>
      match alget values "hada_w1_b" with
      | some w1b =>
        match buildLoha st.name wrapped stem values w1b with
        | .built layer => .cont { st with layers := alput st.layers stem layer }
        | .badModule => .ret st
        | .failed e => .err e
      | none => .ret st

/-- Result of the whole second loop: fell off the end (`done`), returned from
inside the loop (`ret`, indistinguishable from `done` for the caller), or
raised (`err`). -/
inductive PRes where
  | done (st : LoRAState)
  | ret (st : LoRAState)
  | err (e : Err)
deriving DecidableEq

/-- The second loop of `load_from_dict` over the grouped stems. -/
def processGroups (w : WrapperState) : LoRAState → List GroupT → PRes
  | st, [] => .done st
  | st, (stem, values) :: rest =>
    match stepGroup w st stem values with
    | .cont st2 => processGroups w st2 rest
    | .ret st2 => .ret st2
    | .err e => .err e

/-- Method `LoRA.load_from_dict(state_dict)`: the grouping/scalar pass followed by the
per-stem build loop; an in-loop `return` and normal completion both return
cleanly, a raised exception propagates to the caller. -/
def load_from_dict (w : WrapperState) (st : LoRAState)
    (state_dict : List (String × STensor)) : Except Err LoRAState :=
  match pass1 state_dict [] st.alpha st.rank false with
  | .error e => .error e
  | .ok (groups, alpha1, rank1, _isLoha) =>
    match processGroups w { st with alpha := alpha1, rank := rank1 } groups with
    | .done st2 => .ok st2
    | .ret st2 => .ok st2
    | .err e => .error e

/-- Method `KohyaLoraManager.load_lora_module(name, path_file, multiplier)` after the
checkpoint has been read: builds a fresh adapter, parses it, and stores it in
`wrapper.loaded_loras[name]` (the store happens whenever the parse did not
raise, including after an early `return`). -/
def load_lora_module (w : WrapperState) (name : String)
    (checkpoint : List (String × STensor)) (multiplier : ℚ) :
    Except Err (WrapperState × LoRAState) :=
  match load_from_dict w (initLoRA name multiplier) checkpoint with
  | .error e => .error e
  | .ok lora2 => .ok ({ w with loaded_loras := alput w.loaded_loras name lora2 }, lora2)

/-! ### Runtime model of the forward hook

At forward time the layers of an adapter behave as black-box transforms on
tensors: a `LoRALayer` holds the callables `down` / `mid` / `up`, a
`LoHALayer` applies its reconstructed weight to the input through
`torch.nn.functional.conv2d` / `linear` (modelled concretely on `FTensor`
below; here the resulting input transform is carried as a function).  The
tensor type is a parameter `V`; `+` is tensor addition and `•` the
scalar multiplications by `lora.multiplier` and `self.scale`. -/

/-- A Layer Delta as the hook sees it. For the low-rank variant the fields are
the `down` / `mid` / `up` sub-transforms; for the Hadamard variant `opApplied`
is `input_h ↦ op(*input_h, weight.view(org.weight.shape), bias, **extra_args)`
(its concrete definition on `FTensor` is `LoHALayerC.forward` below). -/
inductive LayerF (V : Type) where
  | lo (scale : ℚ) (down : V → V) (mid : Option (V → V)) (up : V → V)
  | ha (scale : ℚ) (opApplied : V → V)

/-- A `LoRA` adapter as the hook sees it. -/
structure LoRAF (V : Type) where
  multiplier : ℚ
  layers : List (String × LayerF V)

/-- Methods `LoRALayer.forward` (lines 33-44) and the reachable part of
`LoHALayer.forward` (lines 65-99): the base output plus the layer's
contribution, scaled by `lora.multiplier` and then `self.scale`. -/
def LayerF.forward {V : Type} [AddCommMonoid V] [SMul ℚ V] :
    LayerF V → ℚ → V → V → V
  | .lo scale down mid up, multiplier, input_h, output =>
    match mid with
    | none => output + scale • (multiplier • up (down input_h))
    | some m => output + scale • (multiplier • up (m (down input_h)))
  | .ha scale opApplied, multiplier, input_h, output =>
    output + scale • (multiplier • opApplied input_h)

/-- Closure returned by `LoRAModuleWrapper.lora_forward_hook(name)`: the inner `lora_forward`
(lines 182-191): fast path when no adapter is loaded, else fold the active
adapters' layer contributions (in insertion order) onto the output. -/
def lora_forward {V : Type} [AddCommMonoid V] [SMul ℚ V]
    (loaded_loras applied_loras : List (String × LoRAF V)) (name : String)
    (input_h output : V) : V :=
  if loaded_loras.length = 0 then output
  else
    applied_loras.foldl
      (fun out p =>
        match alget p.2.layers name with
        | none => out
        | some layer => layer.forward p.2.multiplier input_h out)
      output

/-! ### Concrete tensor model for `LoHALayer.forward`

`FTensor` is a contiguous torch tensor: a shape and a flat row-major data
array (as a total function on flat indices).  `reshape` / `view` on a
contiguous tensor keep the data and change the shape, exactly as in torch. -/

/-- A contiguous tensor: shape plus flat row-major data. -/
structure FTensor where
  shape : List ℕ
  data : ℕ → ℚ

/-- Size of dimension `i` (0 outside the rank, never hit in well-shaped use). -/
def dimAt (t : FTensor) (i : ℕ) : ℕ := t.shape.getD i 0

/-- torch `@` on two 2-D tensors. -/
def matmul2 (a b : FTensor) : FTensor :=
  let k := dimAt a 1
  let n := dimAt b 1
  ⟨[dimAt a 0, n], fun idx =>
    ∑ x ∈ Finset.range k, a.data (idx / n * k + x) * b.data (x * n + idx % n)⟩

/-- torch `*` on same-shaped tensors (Hadamard product). -/
def hadamardT (a b : FTensor) : FTensor :=
  ⟨a.shape, fun idx => a.data idx * b.data idx⟩

/-- torch `+` on same-shaped tensors. -/
def addT (a b : FTensor) : FTensor :=
  ⟨a.shape, fun idx => a.data idx + b.data idx⟩

/-- torch `tensor * scalar`. -/
def smulT (c : ℚ) (a : FTensor) : FTensor :=
  ⟨a.shape, fun idx => a.data idx * c⟩

/-- torch `reshape` / `view` on a contiguous tensor. -/
def reshapeT (a : FTensor) (s : List ℕ) : FTensor := ⟨s, a.data⟩

/-- Contraction `torch.einsum('i j k l, j r, i p -> p r k l', t, wb, wa)`. -/
def einsumT (t wb wa : FTensor) : FTensor :=
  let ni := dimAt t 0
  let nj := dimAt t 1
  let nk := dimAt t 2
  let nl := dimAt t 3
  let nr := dimAt wb 1
  let np := dimAt wa 1
  ⟨[np, nr, nk, nl], fun idx =>
    let l := idx % nl
    let k := idx / nl % nk
    let r := idx / (nl * nk) % nr
    let p := idx / (nl * nk * nr)
    ∑ i ∈ Finset.range ni, ∑ j ∈ Finset.range nj,
      t.data (((i * nj + j) * nk + k) * nl + l) * wb.data (j * nr + r) *
        wa.data (i * np + p)⟩

/-- Zero-padded read of a 4-D input at (possibly out-of-range) spatial
coordinates, as produced by conv2d padding. -/
def paddedAt (x : FTensor) (n c : ℕ) (i j : ℤ) : ℚ :=
  let h := dimAt x 2
  let w := dimAt x 3
  if 0 ≤ i ∧ i < (h : ℤ) ∧ 0 ≤ j ∧ j < (w : ℤ) then
    x.data (((n * dimAt x 1 + c) * h + i.toNat) * w + j.toNat)
  else 0

/-- Operation `torch.nn.functional.conv2d(x, w, bias, stride, padding, dilation, groups)`
on a 4-D input `[N, Cin, H, W]` and weight `[Cout, Cin/groups, kH, kW]`. -/
def conv2dOp (x w : FTensor) (b : Option FTensor) (stride padding dilation : ℕ × ℕ)
    (groups : ℕ) : FTensor :=
  let cout := dimAt w 0
  let cing := dimAt w 1
  let kh := dimAt w 2
  let kw := dimAt w 3
  let hin := dimAt x 2
  let win := dimAt x 3
  let hout := (hin + 2 * padding.1 - dilation.1 * (kh - 1) - 1) / stride.1 + 1
  let wout := (win + 2 * padding.2 - dilation.2 * (kw - 1) - 1) / stride.2 + 1
  ⟨[dimAt x 0, cout, hout, wout], fun idx =>
    let ow := idx % wout
    let oh := idx / wout % hout
    let co := idx / (wout * hout) % cout
    let n := idx / (wout * hout * cout)
    let g := co / (cout / groups)
    (∑ ci ∈ Finset.range cing, ∑ i ∈ Finset.range kh, ∑ j ∈ Finset.range kw,
      paddedAt x n (g * cing + ci)
          ((oh * stride.1 + i * dilation.1 : ℤ) - (padding.1 : ℤ))
          ((ow * stride.2 + j * dilation.2 : ℤ) - (padding.2 : ℤ)) *
        w.data (((co * cing + ci) * kh + i) * kw + j)) +
      (match b with | some bt => bt.data co | none => 0)⟩

/-- Operation `torch.nn.functional.linear(x, w, bias)`: `y = x @ w.T + bias` over the
flattened leading dimensions of `x`. -/
def linearOp (x w : FTensor) (b : Option FTensor) : FTensor :=
  let nf := dimAt w 1
  let no := dimAt w 0
  ⟨x.shape.dropLast ++ [no], fun idx =>
    let n := idx / no
    let o := idx % no
    (∑ f ∈ Finset.range nf, x.data (n * nf + f) * w.data (o * nf + f)) +
      (match b with | some bt => bt.data o | none => 0)⟩

/-- The `org_module` of a `LoHALayer`: its class (Conv2d or not), weight and
optional bias, and the convolution attributes read for `extra_args`. -/
structure LoHAOrg where
  isConv : Bool
  weight : FTensor
  bias : Option FTensor
  stride : ℕ × ℕ
  padding : ℕ × ℕ
  dilation : ℕ × ℕ
  groups : ℕ

/-- Application of `op(*input_h, w, b, **extra_args)` with the org module's
operation and extra arguments (lines 80-91). -/
def LoHAOrg.applyW (o : LoHAOrg) (x w : FTensor) (b : Option FTensor) : FTensor :=
  if o.isConv then conv2dOp x w b o.stride o.padding o.dilation o.groups
  else linearOp x w b

/-- A `LoHALayer` at forward time, with concrete tensors.  The cores `t1` and
`t2` are set together by `load_from_dict` (lines 342-348), so they are carried
as one optional pair. -/
structure LoHALayerC where
  scale : ℚ
  w1_a : FTensor
  w1_b : FTensor
  w2_a : FTensor
  w2_b : FTensor
  t1t2 : Option (FTensor × FTensor)
  org : LoHAOrg

/-- The reachable part of `LoHALayer.forward` (lines 65-99): reconstruct
`weight = org.weight (+reshape) + diff`, view it back to the org weight's
shape, apply it to the input with the org module's op, bias and extra
arguments, scale by `lora.multiplier` and `self.scale`, and add to `output`.
(The second implementation after the unconditional `return`, lines 102-124,
is unreachable and is not modelled.) -/
def LoHALayerC.forward (l : LoHALayerC) (multiplier : ℚ) (input_h output : FTensor) :
    FTensor :=
  let weight :=
    match l.t1t2 with
    | none =>
      let diff_weight := hadamardT (matmul2 l.w1_a l.w1_b) (matmul2 l.w2_a l.w2_b)
      addT (reshapeT l.org.weight diff_weight.shape) diff_weight
    | some t12 =>
      let rebuild1 := einsumT t12.1 l.w1_b l.w1_a
      let rebuild2 := einsumT t12.2 l.w2_b l.w2_a
      addT l.org.weight (hadamardT rebuild1 rebuild2)
  let bias := l.org.bias
  addT output
    (smulT l.scale (smulT multiplier
      (l.org.applyW input_h (reshapeT weight l.org.weight.shape) bias)))

/-- The reconstructed weight-delta tensor alone: the Hadamard product of the
two low-rank products, or the tensor-contraction expansion when cores are
present. -/
def LoHALayerC.deltaW (l : LoHALayerC) : FTensor :=
  match l.t1t2 with
  | none => hadamardT (matmul2 l.w1_a l.w1_b) (matmul2 l.w2_a l.w2_b)
  | some t12 => hadamardT (einsumT t12.1 l.w1_b l.w1_a) (einsumT t12.2 l.w2_b l.w2_a)

/-! ### Model of patchable-layer discovery (`find_modules`) -/

/-- A torch module tree: class name, `kernel_size` when the module is a
Conv2d, and the named children. -/
inductive PyModule where
  | mk (clsName : String) (kernelSize : Option (ℕ × ℕ))
      (children : List (String × PyModule))

/-- Class name accessor. -/
def PyModule.clsName : PyModule → String
  | .mk c _ _ => c

/-- Accessor for `kernel_size`. -/
def PyModule.kernelSize : PyModule → Option (ℕ × ℕ)
  | .mk _ k _ => k

/-- Name joining of `torch.nn.Module.named_modules`. -/
def joinName (p n : String) : String :=
  if p = "" then n else p ++ "." ++ n

mutual
/-- Traversal `module.named_modules()` with prefix `p`: the module itself, then every
descendant with its dotted path. -/
def PyModule.namedAux (p : String) (m : PyModule) : List (String × PyModule) :=
  match m with
  | .mk c k cs => (p, .mk c k cs) :: PyModule.namedList p cs

/-- Children part of `named_modules`. -/
def PyModule.namedList (p : String) (cs : List (String × PyModule)) :
    List (String × PyModule) :=
  match cs with
  | [] => []
  | (n, c) :: rest => PyModule.namedAux (joinName p n) c ++ PyModule.namedList p rest
end

/-- The child filter of `find_modules` (lines 155-159): a `Linear`, or a
`Conv2d` with kernel size 1x1 or 3x3. -/
def isQualifyingChild (m : PyModule) : Bool :=
  m.clsName = "Linear" ∨
    (m.clsName = "Conv2d" ∧ (m.kernelSize = some (1, 1) ∨ m.kernelSize = some (3, 3)))

/-- The result of one `find_modules` call: the identifier map it returns and
the identifiers passed to `apply_module_forward` (one hook per entry, in
order). -/
structure FindRes where
  mapping : List (String × PyModule)
  hooked : List String

/-- The inner loop of `find_modules` (lines 154-163) over
`module.named_modules()`: collect qualifying children into the mapping and
install one hook per collected occurrence. -/
def innerLoop (pfx nm : String) : FindRes → List (String × PyModule) → FindRes
  | acc, [] => acc
  | acc, (child_name, child) :: rest =>
    if isQualifyingChild child then
      let lora_name := replaceDots (pfx ++ "." ++ nm ++ "." ++ child_name)
      innerLoop pfx nm
        ⟨alput acc.mapping lora_name child, acc.hooked ++ [lora_name]⟩ rest
    else innerLoop pfx nm acc rest

/-- The outer loop of `find_modules` (lines 152-153) over
`root_module.named_modules()`: recurse into every module whose class name is
on the allow-list. -/
def outerLoop (pfx : String) (targets : List String) :
    FindRes → List (String × PyModule) → FindRes
  | acc, [] => acc
  | acc, (nm, m) :: rest =>
    if m.clsName ∈ targets then
      outerLoop pfx targets (innerLoop pfx nm acc (PyModule.namedAux "" m)) rest
    else outerLoop pfx targets acc rest

/-- Function `find_modules(prefix, root_module, target_replace_modules)`. -/
def find_modules (pfx : String) (root : PyModule) (targets : List String) : FindRes :=
  outerLoop pfx targets ⟨[], []⟩ (PyModule.namedAux "" root)

/-! ### Association-list lemmas -/

/-- Lookup `alget` misses exactly the keys not in the list. -/
theorem alget_eq_none {α : Type} (l : List (String × α)) (k : String) :
    alget l k = none ↔ k ∉ l.map Prod.fst := by
  induction l with
  | nil => simp [alget]
  | cons p rest ih =>
    rw [List.map_cons, List.mem_cons]
    show (if p.1 = k then some p.2 else alget rest k) = none ↔ ¬(k = p.1 ∨ k ∈ rest.map Prod.fst)
    by_cases hp : p.1 = k
    · rw [if_pos hp]
      constructor
      · intro h; cases h
      · intro h; exact absurd (Or.inl hp.symm) h
    · rw [if_neg hp, ih]
      constructor
      · intro h hk
        rcases hk with hk | hk
        · exact hp hk.symm
        · exact h hk
      · intro h hk; exact h (Or.inr hk)

/-- Updating key `k` leaves other keys' lookups unchanged. -/
theorem alget_alput_ne {α : Type} (l : List (String × α)) (k k2 : String) (v : α)
    (h : k2 ≠ k) : alget (alput l k v) k2 = alget l k2 := by
  have hne : ¬ k = k2 := fun hh => h hh.symm
  induction l with
  | nil =>
    show (if k = k2 then some v else none) = none
    rw [if_neg hne]
  | cons p rest ih =>
    unfold alput
    by_cases hp : p.1 = k
    · rw [if_pos hp]
      show (if k = k2 then some v else alget rest k2) =
        if p.1 = k2 then some p.2 else alget rest k2
      rw [if_neg hne, if_neg (by rw [hp]; exact hne)]
    · rw [if_neg hp]
      show (if p.1 = k2 then some p.2 else alget (alput rest k v) k2) =
        if p.1 = k2 then some p.2 else alget rest k2
      rw [ih]

/-- Lookup after an insert-or-update at the same key. -/
theorem alget_alput_self {α : Type} (l : List (String × α)) (k : String) (v : α) :
    alget (alput l k v) k = some v := by
  induction l with
  | nil =>
    show (if k = k then some v else none) = some v
    rw [if_pos rfl]
  | cons p rest ih =>
    unfold alput
    by_cases hp : p.1 = k
    · rw [if_pos hp]
      show (if k = k then some v else alget rest k) = some v
      rw [if_pos rfl]
    · rw [if_neg hp]
      show (if p.1 = k then some p.2 else alget (alput rest k v) k) = some v
      rw [if_neg hp, ih]

/-- Inserting a fresh key appends it at the end of the key list. -/
theorem alput_keys_new {α : Type} (l : List (String × α)) (k : String) (v : α)
    (h : alget l k = none) : (alput l k v).map Prod.fst = l.map Prod.fst ++ [k] := by
  induction l with
  | nil => simp [alput]
  | cons p rest ih =>
    unfold alget at h
    by_cases hp : p.1 = k
    · rw [if_pos hp] at h; cases h
    · rw [if_neg hp] at h
      unfold alput
      rw [if_neg hp]
      simp [ih h]

/-- Updating an existing key keeps the key list. -/
theorem alput_keys_old {α : Type} (l : List (String × α)) (k : String) (v v2 : α)
    (h : alget l k = some v2) : (alput l k v).map Prod.fst = l.map Prod.fst := by
  induction l with
  | nil => simp [alget] at h
  | cons p rest ih =>
    unfold alget at h
    unfold alput
    by_cases hp : p.1 = k
    · rw [if_pos hp]; simp [hp]
    · rw [if_neg hp] at h
      rw [if_neg hp]
      simp [ih h]

/-- Update `alput` preserves key-list `Nodup`. -/
theorem alput_keys_nodup {α : Type} (l : List (String × α)) (k : String) (v : α)
    (h : (l.map Prod.fst).Nodup) : ((alput l k v).map Prod.fst).Nodup := by
  cases hg : alget l k with
  | none =>
    rw [alput_keys_new l k v hg]
    have hk : k ∉ l.map Prod.fst := (alget_eq_none l k).mp hg
    simp [List.nodup_append, h, hk]
  | some v2 => rw [alput_keys_old l k v v2 hg]; exact h

/-! ### Hook-model lemmas and the hook claims (C1, C8, C9) -/

/-- The contribution a layer's `forward` adds to the output it is given. -/
def contribF {V : Type} [AddCommMonoid V] [SMul ℚ V] : LayerF V → ℚ → V → V
  | .lo scale down mid up, multiplier, input_h =>
    match mid with
    | none => scale • (multiplier • up (down input_h))
    | some m => scale • (multiplier • up (m (down input_h)))
  | .ha scale opApplied, multiplier, input_h =>
    scale • (multiplier • opApplied input_h)

/-- Both layer variants' `forward` add a contribution that does not depend on
the accumulated output. -/
theorem LayerF.forward_eq_contrib {V : Type} [AddCommMonoid V] [SMul ℚ V]
    (l : LayerF V) (m : ℚ) (i o : V) : l.forward m i o = o + contribF l m i := by
  cases l with
  | lo s d mid u => cases mid <;> rfl
  | ha s opA => rfl

/-- Claim C1: for an active low-rank Layer Delta, the hook's contribution for
its layer is `up(down(input))` (or `up(mid(down(input)))` when a mid leg is
present) times the adapter's multiplier times the delta's scale, added to the
base output.  (The `loaded ≠ []` hypothesis reflects the hook's fast path: with
no loaded adapters the hook never iterates.) -/
theorem C1_low_rank_hook_contribution {V : Type} [AddCommMonoid V] [SMul ℚ V]
    (loaded : List (String × LoRAF V)) (an name : String) (A : LoRAF V)
    (s : ℚ) (d u : V → V) (mid : Option (V → V)) (i o : V)
    (hload : loaded ≠ [])
    (hlayer : alget A.layers name = some (.lo s d mid u)) :
    (mid = none →
      lora_forward loaded [(an, A)] name i o = o + s • (A.multiplier • u (d i))) ∧
    (∀ mf, mid = some mf →
      lora_forward loaded [(an, A)] name i o = o + s • (A.multiplier • u (mf (d i)))) := by
  have hlen : ¬ loaded.length = 0 := fun h => hload (List.length_eq_zero.mp h)
  constructor
  · intro hmid
    subst hmid
    simp [lora_forward, hlen, hlayer, LayerF.forward]
  · intro mf hmid
    subst hmid
    simp [lora_forward, hlen, hlayer, LayerF.forward]

/-- Concrete `down` transform for the hook witnesses. -/
def d0q : ℚ → ℚ := fun v => 2 * v

/-- Concrete `up` transform for the hook witnesses. -/
def u0q : ℚ → ℚ := fun v => v + 1

/-- Concrete low-rank layer for the hook witnesses. -/
def layer0q : LayerF ℚ := .lo 3 d0q none u0q

/-- Concrete one-layer adapter for the hook witnesses. -/
def A0q : LoRAF ℚ := ⟨5, [("L", layer0q)]⟩

/-- Witness for C1 at a concrete adapter, input and output. -/
theorem C1_low_rank_hook_contribution_w :
    lora_forward [("n", A0q)] [("n", A0q)] "L" (7 : ℚ) 11 =
      11 + (3 : ℚ) • (A0q.multiplier • u0q (d0q 7)) :=
  (C1_low_rank_hook_contribution [("n", A0q)] "n" "L" A0q 3 d0q u0q none 7 11
    (by simp) rfl).1 rfl

/-- Claim C8: when no active adapter has a Layer Delta for the hooked layer's
identifier (in particular when nothing is loaded at all), the hook returns the
base output unchanged. -/
theorem C8_identity_no_active_layers {V : Type} [AddCommMonoid V] [SMul ℚ V]
    (loaded applied : List (String × LoRAF V)) (name : String) (i o : V)
    (h : ∀ p ∈ applied, alget p.2.layers name = none) :
    lora_forward loaded applied name i o = o := by
  have aux : ∀ (l : List (String × LoRAF V)),
      (∀ p ∈ l, alget p.2.layers name = none) → ∀ out,
      l.foldl (fun out p =>
        match alget p.2.layers name with
        | none => out
        | some layer => layer.forward p.2.multiplier i out) out = out := by
    intro l hl
    induction l with
    | nil => intro out; rfl
    | cons p rest ih =>
      intro out
      have hp := hl p (by simp)
      simp only [List.foldl_cons, hp]
      exact ih (fun q hq => hl q (List.mem_cons_of_mem _ hq)) out
  unfold lora_forward
  split
  · rfl
  · exact aux applied h o

/-- Concrete adapter whose only layer patches a different identifier. -/
def B0q : LoRAF ℚ := ⟨2, [("other", layer0q)]⟩

/-- Witness for C8: an applied adapter that does not patch this layer. -/
theorem C8_identity_no_active_layers_w :
    lora_forward [("n", A0q)] [("b", B0q)] "Lx" (7 : ℚ) 11 = 11 :=
  C8_identity_no_active_layers [("n", A0q)] [("b", B0q)] "Lx" 7 11
    (by intro p hp; simp only [List.mem_singleton] at hp; subst hp; rfl)

/-- Claim C9: the hook applied to two active adapters yields the same output in
either insertion order (accumulation of contributions commutes; arithmetic is
modelled exactly over `ℚ`). -/
theorem C9_accumulation_commutes {V : Type} [AddCommMonoid V] [SMul ℚ V]
    (loaded : List (String × LoRAF V)) (pa pb : String × LoRAF V)
    (name : String) (i o : V) :
    lora_forward loaded [pa, pb] name i o = lora_forward loaded [pb, pa] name i o := by
  unfold lora_forward
  split
  · rfl
  · simp only [List.foldl_cons, List.foldl_nil]
    cases alget pa.2.layers name <;> cases alget pb.2.layers name <;>
      simp only [LayerF.forward_eq_contrib] <;>
      first
        | rfl
        | exact add_right_comm o _ _

/-! ### Parse-loop lemmas -/

/-- An unresolvable stem's group is skipped (lines 264-269). -/
theorem stepGroup_unresolved (w : WrapperState) (st : LoRAState) (stem : String)
    (values : List (String × STensor)) (h : resolveStem w stem = none) :
    stepGroup w st stem values = .cont st := by
  simp only [stepGroup, h]

/-- Appending group lists composes through `processGroups`. -/
theorem processGroups_append (w : WrapperState) (st : LoRAState) (pre rest : List GroupT) :
    processGroups w st (pre ++ rest) =
      match processGroups w st pre with
      | .done st1 => processGroups w st1 rest
      | .ret st1 => .ret st1
      | .err e => .err e := by
  induction pre generalizing st with
  | nil => rfl
  | cons g gs ih =>
    obtain ⟨stem, values⟩ := g
    simp only [List.cons_append, processGroups]
    cases stepGroup w st stem values <;> simp [ih]

/-- Claim C3: if a resolved stem group contains neither `lora_down.weight` nor
`hada_w1_b`, `load_from_dict` logs the unknown format and returns immediately
without raising: the layers mapping keeps exactly the Layer Deltas built
before that stem (the state `st1` reached after the preceding groups), and no
Layer Delta for any later stem is added. -/
theorem C3_unknown_format_abort (w : WrapperState) (st st1 : LoRAState)
    (state_dict : List (String × STensor)) (groups pre rest : List GroupT)
    (alpha1 : Option ℚ) (rank1 : Option ℕ) (lohaFlag : Bool)
    (stem : String) (values : List (String × STensor)) (wrapped : WrappedModule)
    (hp : pass1 state_dict [] st.alpha st.rank false = .ok (groups, alpha1, rank1, lohaFlag))
    (hsplit : groups = pre ++ (stem, values) :: rest)
    (hpre : processGroups w { st with alpha := alpha1, rank := rank1 } pre = .done st1)
    (hres : resolveStem w stem = some wrapped)
    (hdown : alget values "lora_down.weight" = none)
    (hhada : alget values "hada_w1_b" = none) :
    load_from_dict w st state_dict = .ok st1 ∧
      processGroups w { st with alpha := alpha1, rank := rank1 } groups = .ret st1 := by
  have hstep : stepGroup w st1 stem values = .ret st1 := by
    simp only [stepGroup, hres, hdown, hhada]
  have hproc : processGroups w { st with alpha := alpha1, rank := rank1 } groups =
      .ret st1 := by
    rw [hsplit, processGroups_append, hpre]
    simp only [processGroups, hstep]
  exact ⟨by simp only [load_from_dict, hp, hproc], hproc⟩

/-- Wrapper with two linear unet layers, used by the concrete examples. -/
def w0ex : WrapperState :=
  { text_modules := [],
    unet_modules := [("lora_unet_a", .linear 3 2), ("lora_unet_b", .linear 3 4)],
    loaded_loras := [], applied_loras := [] }

/-- Witness for C3: a resolvable stem with an unknown leaf format aborts the
parse cleanly with the (empty) pre-existing layer state. -/
theorem C3_unknown_format_abort_w :
    load_from_dict w0ex (initLoRA "n" 1) [("lora_unet_a.foo", ⟨[1], 0⟩)] =
      .ok { initLoRA "n" 1 with alpha := none, rank := none } ∧
      processGroups w0ex { initLoRA "n" 1 with alpha := none, rank := none }
        [("lora_unet_a", [("foo", ⟨[1], 0⟩)])] =
        .ret { initLoRA "n" 1 with alpha := none, rank := none } :=
  C3_unknown_format_abort w0ex (initLoRA "n" 1) _ _
    [("lora_unet_a", [("foo", ⟨[1], 0⟩)])] [] [] none none false
    "lora_unet_a" [("foo", ⟨[1], 0⟩)] (.linear 3 2)
    (by decide) rfl rfl (by decide) (by decide) (by decide)

/-- Claim C10: a resolvable stem group holding `lora_down.weight` but missing
`lora_up.weight` makes `load_from_dict` raise a KeyError that propagates to
the caller (provided the preceding groups process without an early return). -/
theorem C10_missing_up_raises (w : WrapperState) (st st1 : LoRAState)
    (state_dict : List (String × STensor)) (groups pre rest : List GroupT)
    (alpha1 : Option ℚ) (rank1 : Option ℕ) (lohaFlag : Bool)
    (stem : String) (values : List (String × STensor)) (wrapped : WrappedModule)
    (value_down : STensor)
    (hp : pass1 state_dict [] st.alpha st.rank false = .ok (groups, alpha1, rank1, lohaFlag))
    (hsplit : groups = pre ++ (stem, values) :: rest)
    (hpre : processGroups w { st with alpha := alpha1, rank := rank1 } pre = .done st1)
    (hres : resolveStem w stem = some wrapped)
    (hdown : alget values "lora_down.weight" = some value_down)
    (hup : alget values "lora_up.weight" = none) :
    load_from_dict w st state_dict = .error (.keyError "lora_up.weight") := by
  have hstep : stepGroup w st1 stem values = .err (.keyError "lora_up.weight") := by
    simp only [stepGroup, hres, hdown, buildLora, hup]
  have hproc : processGroups w { st with alpha := alpha1, rank := rank1 } groups =
      .err (.keyError "lora_up.weight") := by
    rw [hsplit, processGroups_append, hpre]
    simp only [processGroups, hstep]
  simp only [load_from_dict, hp, hproc]

/-- Witness for C10 at a concrete one-stem checkpoint. -/
theorem C10_missing_up_raises_w :
    load_from_dict w0ex (initLoRA "n" 1)
        [("lora_unet_a.lora_down.weight", ⟨[2, 3], 0⟩)] =
      .error (.keyError "lora_up.weight") :=
  C10_missing_up_raises w0ex (initLoRA "n" 1)
    { initLoRA "n" 1 with alpha := none, rank := some 2 }
    [("lora_unet_a.lora_down.weight", ⟨[2, 3], 0⟩)]
    [("lora_unet_a", [("lora_down.weight", ⟨[2, 3], 0⟩)])] [] []
    none (some 2) false
    "lora_unet_a" [("lora_down.weight", ⟨[2, 3], 0⟩)] (.linear 3 2) ⟨[2, 3], 0⟩
    (by decide) rfl rfl (by decide) (by decide) (by decide)

/-- Claim C4 (amended): when the parse returns without raising — which includes
every unknown-leaf-format abort — `load_lora_module` does store the (possibly
partially parsed) adapter: the loaded-adapter mapping afterwards contains the
entry under that name. -/
theorem C4_partial_adapter_stored_amended (w : WrapperState) (name : String)
    (checkpoint : List (String × STensor)) (multiplier : ℚ) (st2 : LoRAState)
    (h : load_from_dict w (initLoRA name multiplier) checkpoint = .ok st2) :
    load_lora_module w name checkpoint multiplier =
      .ok ({ w with loaded_loras := alput w.loaded_loras name st2 }, st2) ∧
    alget (alput w.loaded_loras name st2) name = some st2 :=
  ⟨by simp only [load_lora_module, h], alget_alput_self _ _ _⟩

/-- A checkpoint whose only stem resolves but holds an unknown leaf format. -/
def ckUnknown : List (String × STensor) := [("lora_unet_a.foo", ⟨[1], 0⟩)]

/-- Claim C4 is false on the code: this parse aborts on an unknown leaf format
(the group loop ends in an in-loop return), yet after `load_lora_module` the
loaded-adapter mapping does contain an entry for the name. -/
theorem C4_partial_store_cx :
    processGroups w0ex (initLoRA "n" 1) [("lora_unet_a", [("foo", ⟨[1], 0⟩)])] =
        .ret (initLoRA "n" 1) ∧
      load_lora_module w0ex "n" ckUnknown 1 =
        .ok ({ w0ex with loaded_loras := [("n", initLoRA "n" 1)] }, initLoRA "n" 1) ∧
      hasKeyA [("n", initLoRA "n" 1)] "n" = true := by
  decide

/-- Witness for C4's amended theorem at the aborting checkpoint. -/
theorem C4_partial_adapter_stored_amended_w :
    load_lora_module w0ex "n" ckUnknown 1 =
      .ok ({ w0ex with loaded_loras := alput w0ex.loaded_loras "n" (initLoRA "n" 1) },
           initLoRA "n" 1) ∧
    alget (alput w0ex.loaded_loras "n" (initLoRA "n" 1)) "n" = some (initLoRA "n" 1) :=
  C4_partial_adapter_stored_amended w0ex "n" ckUnknown 1 (initLoRA "n" 1) (by decide)

/-! ### Claim C5: adapter-wide alpha versus the scale actually computed -/

/-- State mapping with a global alpha leaf (on an unresolvable stem) and one
resolvable low-rank group without a local alpha. -/
def sdAlpha : List (String × STensor) :=
  [("lora_unet_zz.alpha", ⟨[], 8⟩),
   ("lora_unet_b.lora_down.weight", ⟨[2, 3], 0⟩),
   ("lora_unet_b.lora_up.weight", ⟨[4, 2], 0⟩)]

/-- Claim C5 is false on the code: parsing `sdAlpha` records the adapter-wide
alpha 8 and rank 2, the group for `lora_unet_b` has no local alpha leaf, yet
the built delta's scale is 1 rather than `8 / 2`: the recorded adapter-wide
alpha is never applied to any Layer Delta's scale. -/
theorem C5_adapter_alpha_cx :
    load_from_dict w0ex (initLoRA "n" 1) sdAlpha =
      .ok { name := "n", multiplier := 1,
            layers := [("lora_unet_b", .lora
              { lora_name := "n", name := "lora_unet_b", scale := 1,
                down := .lin ⟨3, 2, ⟨[2, 3], 0⟩⟩, mid := none,
                up := .lin ⟨2, 4, ⟨[4, 2], 0⟩⟩ })],
            rank := some 2, alpha := some 8 } ∧
    (1 : ℚ) ≠ 8 / 2 :=
  ⟨by decide, by norm_num⟩

/-- Claim C5 (amended): a Layer Delta's scale is computed from the group-local
alpha only — together with the adapter-wide rank for the low-rank variant, and
with the local `hada_w1_b` rank for the Hadamard variant; when the group has
no local alpha leaf the scale defaults to 1.0.  The recorded adapter-wide
alpha is never consulted. -/
theorem C5_scale_local_alpha_amended (an : String) (ar : Option ℕ)
    (wrapped : WrappedModule) (stem : String) (values : List (String × STensor))
    (value_down w1b : STensor) :
    (∀ L : LoRALayerS, buildLora an ar wrapped stem values value_down = .built (.lora L) →
      L.scale = mkScale ar ((alget values "alpha").map STensor.item)) ∧
    (∀ H : LoHALayerS, ∀ r : ℕ, w1b.shape.get? 0 = some r →
      buildLoha an wrapped stem values w1b = .built (.loha H) →
      H.scale = mkScale (some r) ((alget values "alpha").map STensor.item)) := by
  constructor
  · intro L h
    obtain ⟨ln, nm, sc, dn, md, upl⟩ := L
    cases wrapped
    all_goals simp only [buildLora] at h
    all_goals repeat' split at h
    all_goals simp_all
  · intro H r hr h
    obtain ⟨ln, nm, sc, a1, b1, a2, b2, t1c, t2c, orgm⟩ := H
    unfold buildLoha at h
    repeat' split at h
    all_goals simp_all

/-- Values of the concrete well-formed low-rank group used by the witnesses. -/
def vals5 : List (String × STensor) :=
  [("lora_down.weight", ⟨[2, 3], 0⟩), ("lora_up.weight", ⟨[4, 2], 0⟩)]

/-- Witness for C5's amended theorem at a concrete build without a local
alpha: the scale is `mkScale (some 2) none = 1`. -/
theorem C5_scale_local_alpha_amended_w :
    (buildLora "n" (some 2) (.linear 3 4) "s" vals5 ⟨[2, 3], 0⟩ = .built (.lora
      { lora_name := "n", name := "s", scale := 1,
        down := .lin ⟨3, 2, ⟨[2, 3], 0⟩⟩, mid := none,
        up := .lin ⟨2, 4, ⟨[4, 2], 0⟩⟩ })) ∧
    (1 : ℚ) = mkScale (some 2) ((alget vals5 "alpha").map STensor.item) :=
  ⟨by decide,
   (C5_scale_local_alpha_amended "n" (some 2) (.linear 3 4) "s" vals5
      ⟨[2, 3], 0⟩ ⟨[1], 0⟩).1
     { lora_name := "n", name := "s", scale := 1,
       down := .lin ⟨3, 2, ⟨[2, 3], 0⟩⟩, mid := none,
       up := .lin ⟨2, 4, ⟨[4, 2], 0⟩⟩ } (by decide)⟩

/-! ### Claim C7: round trip for well-formed low-rank state mappings -/

/-- A stem group in well-formed low-rank format relative to its resolved
module: both weight legs present with at least 2-dimensional shapes (a mid
leg, if any, likewise), the module one of the two known classes, and every
parsed tensor shape-compatible with the weight of the sub-transform the
parser constructs for it — i.e. expandable to `[shape[0], shape[1]]` for a
linear leg and to `[shape[0], shape[1], kH, kW]` for a convolution leg, so
that the `weight.copy_` calls (lines 302-306) do not raise. -/
def wellFormedGroupB (wrapped : WrappedModule) (values : List (String × STensor)) : Bool :=
  match alget values "lora_down.weight" with
  | none => false
  | some vd =>
    match alget values "lora_up.weight" with
    | none => false
    | some vu =>
      match vd.shape with
      | d0 :: d1 :: dtl =>
        match vu.shape with
        | u0 :: u1 :: utl =>
          (match wrapped with
           | .other _ => false
           | .linear _ _ =>
             broadcastableTo (d0 :: d1 :: dtl) [d0, d1] &&
             broadcastableTo (u0 :: u1 :: utl) [u0, u1]
           | .conv2d ks _ _ =>
             match alget values "lora_mid.weight" with
             | some vm =>
               match vm.shape with
               | m0 :: m1 :: mtl =>
                 broadcastableTo (d0 :: d1 :: dtl) [d0, d1, 1, 1] &&
                 broadcastableTo (m0 :: m1 :: mtl) [m0, m1, ks.1, ks.2] &&
                 broadcastableTo (u0 :: u1 :: utl) [u0, u1, 1, 1]
               | _ => false
             | none =>
               broadcastableTo (d0 :: d1 :: dtl) [d0, d1, ks.1, ks.2] &&
               broadcastableTo (u0 :: u1 :: utl) [u0, u1, 1, 1])
        | _ => false
      | _ => false

/-- Sanity check of the copy-compatibility path: a 3-dimensional
`lora_down.weight` on a linear module is not expandable to the constructed
2-D leg weight, so the build fails with RuntimeError at the weight copy,
as the program does. -/
theorem buildLora_copy_mismatch_linear :
    buildLora "n" (some 2) (.linear 3 4) "s"
      [("lora_down.weight", ⟨[2, 3, 1], 0⟩), ("lora_up.weight", ⟨[4, 2], 0⟩)]
      ⟨[2, 3, 1], 0⟩ = .failed .runtimeError := by decide

/-- Sanity check of the copy-compatibility path: a 2-dimensional
`lora_down.weight` on a 3x3 convolution module is not expandable to the
constructed 4-D leg weight, so the build fails with RuntimeError at the
weight copy, as the program does. -/
theorem buildLora_copy_mismatch_conv :
    buildLora "n" (some 2) (.conv2d (3, 3) (1, 1) (1, 1)) "s"
      [("lora_down.weight", ⟨[2, 3], 0⟩), ("lora_up.weight", ⟨[4, 2], 0⟩)]
      ⟨[2, 3], 0⟩ = .failed .runtimeError := by decide

/-- A well-formed group's low-rank build succeeds (in particular all the
`weight.copy_` compatibility checks pass). -/
theorem buildLora_built_of_wellFormed (an : String) (ar : Option ℕ)
    (wrapped : WrappedModule) (stem : String) (values : List (String × STensor))
    (value_down : STensor)
    (hdown : alget values "lora_down.weight" = some value_down)
    (hwf : wellFormedGroupB wrapped values = true) :
    ∃ layer, buildLora an ar wrapped stem values value_down = .built layer := by
  unfold wellFormedGroupB at hwf
  rw [hdown] at hwf
  cases hup : alget values "lora_up.weight" with
  | none => rw [hup] at hwf; simp at hwf
  | some vu =>
    rw [hup] at hwf
    obtain ⟨vdshape, vditem⟩ := value_down
    obtain ⟨vushape, vuitem⟩ := vu
    cases vdshape with
    | nil => simp at hwf
    | cons d0 dr =>
      cases dr with
      | nil => simp at hwf
      | cons d1 dtl =>
        cases vushape with
        | nil => simp at hwf
        | cons u0 ur =>
          cases ur with
          | nil => simp at hwf
          | cons u1 utl =>
            cases wrapped with
            | other cls => simp at hwf
            | linear fi fo =>
              simp only [Bool.and_eq_true] at hwf
              obtain ⟨hbd, hbu⟩ := hwf
              simp only [buildLora, hup, List.get?_cons_succ, List.get?_cons_zero]
              rw [if_pos hbd, if_pos hbu]
              exact ⟨_, rfl⟩
            | conv2d ks strd pad =>
              cases hmid : alget values "lora_mid.weight" with
              | none =>
                rw [hmid] at hwf
                simp only [Bool.and_eq_true] at hwf
                obtain ⟨hbd, hbu⟩ := hwf
                simp only [buildLora, hup, hmid, List.get?_cons_succ, List.get?_cons_zero]
                rw [if_pos hbd, if_pos hbu]
                exact ⟨_, rfl⟩
              | some vm =>
                rw [hmid] at hwf
                obtain ⟨vmshape, vmitem⟩ := vm
                cases vmshape with
                | nil => simp at hwf
                | cons m0 mr =>
                  cases mr with
                  | nil => simp at hwf
                  | cons m1 mtl =>
                    simp only [Bool.and_eq_true] at hwf
                    obtain ⟨⟨hbd, hbm⟩, hbu⟩ := hwf
                    simp only [buildLora, hup, hmid, List.get?_cons_succ,
                      List.get?_cons_zero]
                    rw [if_pos hbd, if_pos hbm, if_pos hbu]
                    exact ⟨_, rfl⟩

/-- A resolvable well-formed group's step stores exactly one new layer. -/
theorem stepGroup_built_of_wellFormed (w : WrapperState) (st : LoRAState)
    (stem : String) (values : List (String × STensor)) (wrapped : WrappedModule)
    (hres : resolveStem w stem = some wrapped)
    (hwf : wellFormedGroupB wrapped values = true) :
    ∃ layer, stepGroup w st stem values =
      .cont { st with layers := alput st.layers stem layer } := by
  have hdown : ∃ vd, alget values "lora_down.weight" = some vd := by
    unfold wellFormedGroupB at hwf
    cases hd : alget values "lora_down.weight" with
    | none => rw [hd] at hwf; simp at hwf
    | some vd => exact ⟨vd, rfl⟩
  obtain ⟨vd, hd⟩ := hdown
  obtain ⟨layer, hb⟩ :=
    buildLora_built_of_wellFormed st.name st.rank wrapped stem values vd hd hwf
  refine ⟨layer, ?_⟩
  simp only [stepGroup, hres, hd, hb]

/-- The whole well-formed round trip over the grouped stems. -/
theorem processGroups_wellFormed (w : WrapperState) :
    ∀ (groups : List GroupT) (st : LoRAState),
    (∀ g ∈ groups, ∀ wrapped, resolveStem w g.1 = some wrapped →
      wellFormedGroupB wrapped g.2 = true) →
    ((groups.map Prod.fst).Nodup) →
    (∀ g ∈ groups, alget st.layers g.1 = none) →
    ∃ st2, processGroups w st groups = .done st2 ∧
      st2.layers.map Prod.fst = st.layers.map Prod.fst ++
        (groups.filter (fun g => (resolveStem w g.1).isSome)).map Prod.fst := by
  intro groups
  induction groups with
  | nil => intro st _ _ _; exact ⟨st, rfl, by simp⟩
  | cons g gs ih =>
    intro st hwf hnd hnew
    obtain ⟨stem, values⟩ := g
    cases hres : resolveStem w stem with
    | none =>
      obtain ⟨st2, hp2, hkeys⟩ := ih st
        (fun q hq => hwf q (List.mem_cons_of_mem _ hq))
        (List.Nodup.of_cons hnd)
        (fun q hq => hnew q (List.mem_cons_of_mem _ hq))
      refine ⟨st2, ?_, ?_⟩
      · simp only [processGroups, stepGroup_unresolved w st stem values hres, hp2]
      · rw [hkeys]
        simp [List.filter_cons, hres]
    | some wrapped =>
      have hwfg := hwf (stem, values) (by simp) wrapped hres
      obtain ⟨layer, hstep⟩ :=
        stepGroup_built_of_wellFormed w st stem values wrapped hres hwfg
      have hstem_not : stem ∉ gs.map Prod.fst := (List.nodup_cons.mp hnd).1
      have hnewstem : alget st.layers stem = none := hnew (stem, values) (by simp)
      obtain ⟨st2, hp2, hkeys⟩ := ih { st with layers := alput st.layers stem layer }
        (fun q hq => hwf q (List.mem_cons_of_mem _ hq))
        (List.Nodup.of_cons hnd)
        (fun q hq => by
          have hqne : q.1 ≠ stem := by
            intro hEq
            exact hstem_not (hEq ▸ List.mem_map_of_mem Prod.fst hq)
          show alget (alput st.layers stem layer) q.1 = none
          rw [alget_alput_ne st.layers stem q.1 layer hqne]
          exact hnew q (List.mem_cons_of_mem _ hq))
      refine ⟨st2, ?_, ?_⟩
      · simp only [processGroups, hstep, hp2]
      · rw [hkeys]
        show (alput st.layers stem layer).map Prod.fst ++ _ = _
        rw [alput_keys_new st.layers stem layer hnewstem]
        simp [List.filter_cons, hres, List.append_assoc]

/-- Claim C7: parsing a well-formed low-rank state mapping — every resolvable
group holds both weight legs, on a known module class, with tensors
shape-compatible with the constructed legs' weights so the `weight.copy_`
calls cannot raise — produces exactly one Layer Delta per stem that resolves
in the registry's identifier maps, in group order; stems that do not resolve
(or carry neither tracked prefix) are skipped without raising while the
remaining groups are still processed. -/
theorem C7_round_trip (w : WrapperState) (st : LoRAState)
    (state_dict : List (String × STensor)) (groups : List GroupT)
    (alpha1 : Option ℚ) (rank1 : Option ℕ) (lohaFlag : Bool)
    (hp : pass1 state_dict [] st.alpha st.rank false = .ok (groups, alpha1, rank1, lohaFlag))
    (hwf : ∀ g ∈ groups, ∀ wrapped, resolveStem w g.1 = some wrapped →
      wellFormedGroupB wrapped g.2 = true)
    (hnd : (groups.map Prod.fst).Nodup)
    (hnew : ∀ g ∈ groups, alget st.layers g.1 = none) :
    ∃ st2, load_from_dict w st state_dict = .ok st2 ∧
      st2.layers.map Prod.fst = st.layers.map Prod.fst ++
        (groups.filter (fun g => (resolveStem w g.1).isSome)).map Prod.fst := by
  obtain ⟨st2, hp2, hkeys⟩ := processGroups_wellFormed w groups
    { st with alpha := alpha1, rank := rank1 } hwf hnd hnew
  exact ⟨st2, by simp only [load_from_dict, hp, hp2], hkeys⟩

/-- Concrete state mapping for the C7 witness: one resolvable stem and one
unresolvable stem, both in well-formed low-rank format. -/
def sdRound : List (String × STensor) :=
  [("lora_unet_b.lora_down.weight", ⟨[2, 3], 0⟩),
   ("lora_unet_b.lora_up.weight", ⟨[4, 2], 0⟩),
   ("lora_unet_zzz.lora_down.weight", ⟨[2, 3], 0⟩),
   ("lora_unet_zzz.lora_up.weight", ⟨[4, 2], 0⟩)]

/-- The grouped form of `sdRound`. -/
def groups7 : List GroupT :=
  [("lora_unet_b",
    [("lora_down.weight", ⟨[2, 3], 0⟩), ("lora_up.weight", ⟨[4, 2], 0⟩)]),
   ("lora_unet_zzz",
    [("lora_down.weight", ⟨[2, 3], 0⟩), ("lora_up.weight", ⟨[4, 2], 0⟩)])]

/-- Witness for C7: parsing `sdRound` succeeds, producing exactly one Layer
Delta, for the one resolvable stem. -/
theorem C7_round_trip_w :
    ∃ st2, load_from_dict w0ex (initLoRA "n" 1) sdRound = .ok st2 ∧
      st2.layers.map Prod.fst = (initLoRA "n" 1).layers.map Prod.fst ++
        (groups7.filter (fun g => (resolveStem w0ex g.1).isSome)).map Prod.fst :=
  C7_round_trip w0ex (initLoRA "n" 1) sdRound groups7 none (some 2) false
    (by decide)
    (by
      intro g hg wrapped hres
      simp only [groups7, List.mem_cons, List.not_mem_nil, or_false] at hg
      rcases hg with h | h
      · subst h
        have h0 : resolveStem w0ex "lora_unet_b" = some (.linear 3 4) := by decide
        have h1 : WrappedModule.linear 3 4 = wrapped := Option.some.inj (h0.symm.trans hres)
        subst h1
        decide
      · subst h
        have h0 : resolveStem w0ex "lora_unet_zzz" = none := by decide
        exact Option.noConfusion (h0.symm.trans hres))
    (by decide)
    (by decide)

/-! ### Claim C6: patchable-layer discovery -/

/-- Length of a `flatMap` as a sum of per-element lengths. -/
theorem length_flatMap_eq_sum {α β : Type} (l : List α) (f : α → List β) :
    (l.flatMap f).length = (l.map (fun a => (f a).length)).sum := by
  induction l with
  | nil => rfl
  | cons a t ih => simp [List.flatMap_cons, ih]

/-- The inner loop appends one hooked identifier per qualifying child
occurrence, in traversal order. -/
theorem innerLoop_hooked (pfx nm : String) (acc : FindRes)
    (l : List (String × PyModule)) :
    (innerLoop pfx nm acc l).hooked =
      acc.hooked ++ (l.filter (fun c => isQualifyingChild c.2)).map
        (fun c => replaceDots (pfx ++ "." ++ nm ++ "." ++ c.1)) := by
  induction l generalizing acc with
  | nil => simp [innerLoop]
  | cons c rest ih =>
    obtain ⟨cn, cm⟩ := c
    by_cases hq : isQualifyingChild cm = true
    · simp [innerLoop, hq, ih, List.filter_cons, List.append_assoc]
    · simp [innerLoop, hq, ih, List.filter_cons]

/-- The inner loop preserves duplicate-freedom of the mapping's keys. -/
theorem innerLoop_mapping_nodup (pfx nm : String) (acc : FindRes)
    (l : List (String × PyModule)) (h : (acc.mapping.map Prod.fst).Nodup) :
    ((innerLoop pfx nm acc l).mapping.map Prod.fst).Nodup := by
  induction l generalizing acc with
  | nil => simpa [innerLoop] using h
  | cons c rest ih =>
    obtain ⟨cn, cm⟩ := c
    by_cases hq : isQualifyingChild cm = true
    · simp only [innerLoop, if_pos hq]
      exact ih _ (alput_keys_nodup _ _ _ h)
    · simp only [innerLoop, if_neg hq]
      exact ih _ h

/-- The outer loop's hooked identifiers: one per (matched container,
qualifying child) pair. -/
theorem outerLoop_hooked (pfx : String) (targets : List String) (acc : FindRes)
    (l : List (String × PyModule)) :
    (outerLoop pfx targets acc l).hooked =
      acc.hooked ++ l.flatMap (fun q =>
        if q.2.clsName ∈ targets then
          ((PyModule.namedAux "" q.2).filter (fun c => isQualifyingChild c.2)).map
            (fun c => replaceDots (pfx ++ "." ++ q.1 ++ "." ++ c.1))
        else []) := by
  induction l generalizing acc with
  | nil => simp [outerLoop]
  | cons q rest ih =>
    obtain ⟨nm, m⟩ := q
    by_cases hm : m.clsName ∈ targets
    · simp [outerLoop, hm, ih, innerLoop_hooked, List.append_assoc]
    · simp [outerLoop, hm, ih]

/-- The outer loop preserves duplicate-freedom of the mapping's keys. -/
theorem outerLoop_mapping_nodup (pfx : String) (targets : List String) (acc : FindRes)
    (l : List (String × PyModule)) (h : (acc.mapping.map Prod.fst).Nodup) :
    ((outerLoop pfx targets acc l).mapping.map Prod.fst).Nodup := by
  induction l generalizing acc with
  | nil => simpa [outerLoop] using h
  | cons q rest ih =>
    obtain ⟨nm, m⟩ := q
    by_cases hm : m.clsName ∈ targets
    · simp only [outerLoop, if_pos hm]
      exact ih _ (innerLoop_mapping_nodup _ _ _ _ h)
    · simp only [outerLoop, if_neg hm]
      exact ih _ h

/-- Claim C6 (amended): the identifier-to-module mapping a `find_modules` call
returns is keyed without duplicates, and exactly one forward-observation hook
is installed per (matched container occurrence, qualifying descendant) pair —
so a sub-layer reachable through two nested allow-listed containers is hooked
once per container, not once overall. -/
theorem C6_hooks_amended (pfx : String) (root : PyModule) (targets : List String) :
    (((find_modules pfx root targets).mapping.map Prod.fst).Nodup) ∧
    (find_modules pfx root targets).hooked.length =
      ((PyModule.namedAux "" root).map (fun q =>
        if q.2.clsName ∈ targets then
          ((PyModule.namedAux "" q.2).filter (fun c => isQualifyingChild c.2)).length
        else 0)).sum := by
  constructor
  · exact outerLoop_mapping_nodup pfx targets ⟨[], []⟩ _ (by simp)
  · rw [find_modules, outerLoop_hooked]
    simp only [List.nil_append, length_flatMap_eq_sum]
    refine congrArg List.sum (List.map_congr_left ?_)
    intro q _
    by_cases hm : q.2.clsName ∈ targets
    · simp [hm]
    · simp [hm]

/-- A linear leaf module. -/
def exLin : PyModule := .mk "Linear" none []

/-- An allow-listed attention block holding the linear layer. -/
def exAttn : PyModule := .mk "Attention" none [("l", exLin)]

/-- An allow-listed transformer block holding the attention block (as in the
diffusers unet, where `Transformer2DModel` contains `Attention` blocks). -/
def exTrans : PyModule := .mk "Transformer2DModel" none [("b", exAttn)]

/-- A root network holding the nested blocks. -/
def exRoot : PyModule := .mk "Root" none [("a", exTrans)]

/-- Claim C6 is false on the code: with one allow-listed container nested
inside another, the same linear sub-layer is collected and hooked twice (under
the same normalized identifier) — the installed-hook identifier list is not
duplicate-free, so discovery does not install exactly one hook per collected
sub-layer. -/
theorem C6_unique_hooks_cx :
    ¬ ((find_modules LORA_PREFIX_UNET exRoot UNET_TARGET_REPLACE_MODULE).hooked.Nodup) := by
  decide

/-! ### Claim C2: the Hadamard-variant forward contribution -/

/-- Operation `linearOp` distributes over a sum of weights, with the bias counted once. -/
theorem linearOp_add_weight (x : FTensor) (s : List ℕ) (wd dd : ℕ → ℚ)
    (b : Option FTensor) :
    linearOp x ⟨s, fun idx => wd idx + dd idx⟩ b =
      addT (linearOp x ⟨s, wd⟩ b) (linearOp x ⟨s, dd⟩ none) := by
  cases b with
  | none =>
    simp only [linearOp, addT, dimAt]
    congr 1
    funext idx
    simp only [mul_add, Finset.sum_add_distrib]
    ring
  | some bt =>
    simp only [linearOp, addT, dimAt]
    congr 1
    funext idx
    simp only [mul_add, Finset.sum_add_distrib]
    ring

/-- Operation `conv2dOp` distributes over a sum of weights, with the bias counted once. -/
theorem conv2dOp_add_weight (x : FTensor) (s : List ℕ) (wd dd : ℕ → ℚ)
    (b : Option FTensor) (stride padding dilation : ℕ × ℕ) (groups : ℕ) :
    conv2dOp x ⟨s, fun idx => wd idx + dd idx⟩ b stride padding dilation groups =
      addT (conv2dOp x ⟨s, wd⟩ b stride padding dilation groups)
           (conv2dOp x ⟨s, dd⟩ none stride padding dilation groups) := by
  cases b with
  | none =>
    simp only [conv2dOp, addT, dimAt]
    congr 1
    funext idx
    simp only [mul_add, Finset.sum_add_distrib]
    ring
  | some bt =>
    simp only [conv2dOp, addT, dimAt]
    congr 1
    funext idx
    simp only [mul_add, Finset.sum_add_distrib]
    ring

/-- The org module's operation distributes over a sum of weights. -/
theorem applyW_add_weight (o : LoHAOrg) (x : FTensor) (s : List ℕ) (wd dd : ℕ → ℚ)
    (b : Option FTensor) :
    o.applyW x ⟨s, fun idx => wd idx + dd idx⟩ b =
      addT (o.applyW x ⟨s, wd⟩ b) (o.applyW x ⟨s, dd⟩ none) := by
  unfold LoHAOrg.applyW
  by_cases hc : o.isConv = true
  · simp only [hc, if_true]
    exact conv2dOp_add_weight x s wd dd b o.stride o.padding o.dilation o.groups
  · simp only [hc, if_false]
    exact linearOp_add_weight x s wd dd b

/-- Claim C2 (amended): the Hadamard-variant forward adds to the base output
`multiplier × scale` times the sum of (a) the original layer's own output on
the input — original weight and bias included — and (b) the reconstructed
weight-delta applied to the input without bias: the original layer's weight
and bias are scaled along with the delta, not excluded. -/
theorem C2_loha_contribution_amended (l : LoHALayerC) (multiplier : ℚ)
    (input_h output : FTensor) :
    l.forward multiplier input_h output =
      addT output (smulT l.scale (smulT multiplier
        (addT (l.org.applyW input_h l.org.weight l.org.bias)
              (l.org.applyW input_h (reshapeT l.deltaW l.org.weight.shape) none)))) := by
  unfold LoHALayerC.forward LoHALayerC.deltaW
  cases h12 : l.t1t2 with
  | none =>
    simp only [reshapeT, addT]
    rw [applyW_add_weight l.org input_h l.org.weight.shape l.org.weight.data
      (hadamardT (matmul2 l.w1_a l.w1_b) (matmul2 l.w2_a l.w2_b)).data l.org.bias]
    rfl
  | some t12 =>
    simp only [reshapeT, addT]
    rw [applyW_add_weight l.org input_h l.org.weight.shape l.org.weight.data
      (hadamardT (einsumT t12.1 l.w1_b l.w1_a) (einsumT t12.2 l.w2_b l.w2_a)).data
      l.org.bias]
    rfl

/-- A 1x1 all-ones tensor. -/
def oneT : FTensor := ⟨[1, 1], fun _ => 1⟩

/-- A length-1 all-ones bias tensor. -/
def biasT : FTensor := ⟨[1], fun _ => 1⟩

/-- A 1x1 all-zeros tensor. -/
def zeroT : FTensor := ⟨[1, 1], fun _ => 0⟩

/-- A concrete Hadamard-variant layer over a linear org module with weight 1
and bias 1; its reconstructed delta is the 1x1 tensor with entry 1. -/
def lohaEx : LoHALayerC :=
  { scale := 1, w1_a := oneT, w1_b := oneT, w2_a := oneT, w2_b := oneT,
    t1t2 := none,
    org := { isConv := false, weight := oneT, bias := some biasT,
             stride := (1, 1), padding := (0, 0), dilation := (1, 1), groups := 1 } }

/-- Claim C2 is false on the code: at this concrete layer the hook adds 3 to
the output entry (the original weight and bias are applied and scaled along
with the delta), while applying only the reconstructed delta — scaled by
multiplier times scale, without the original weight or bias — would add 1. -/
theorem C2_delta_only_cx :
    (lohaEx.forward 1 oneT zeroT).data 0 ≠
      (addT zeroT (smulT lohaEx.scale (smulT 1
        (lohaEx.org.applyW oneT (reshapeT lohaEx.deltaW lohaEx.org.weight.shape)
          none)))).data 0 := by
  simp only [LoHALayerC.forward, LoHALayerC.deltaW, LoHAOrg.applyW, lohaEx, oneT,
    biasT, zeroT, matmul2, hadamardT, addT, reshapeT, smulT, linearOp, dimAt,
    Bool.false_eq_true, if_false, List.getD]
  norm_num [Finset.sum_range_succ]
